import Mathlib

/-!
Shallow embedding of the short-link registry and click-tracking logic of
`src/folder-1/my-app/src/App.jsx` (a browser URL-shortening demo).

The registry state is the pair of the `shortLinks` list (from `URLProvider`)
and the `logs` list (from `LoggingProvider`); every registry operation is
modelled as a function on that state.  JavaScript numbers that the claims
touch are modelled as `Rat` (timestamps, validity minutes), so JavaScript
truthiness of a number is `≠ 0` and `Number.isInteger` is `Rat.isInt`.
Log entries carry their level and message; the source also timestamps each
entry and attaches a structured payload, which no claim observes.
-/

namespace UrlShortener

/-- A click event: `{ timestamp, referrer, location }` as built in
`RedirectHandler`. -/
structure ClickEvent where
  timestamp : Rat
  referrer : String
  location : String
deriving DecidableEq

/-- A short-link record, with the fields assembled in `handleSubmit`
(`newShortLink`). -/
structure ShortLink where
  id : String
  originalUrl : String
  shortcode : String
  validityMinutes : Rat
  createdAt : Rat
  expiresAt : Rat
  clickCount : Nat
  clicks : List ClickEvent
deriving DecidableEq

/-- One entry of the activity log, as appended by `LoggingProvider.log`
(the source also records a timestamp and a `data` payload; no claim
observes them). -/
structure LogEntry where
  level : String
  message : String
deriving DecidableEq

/-- The registry state: the `shortLinks` array of `URLProvider` together
with the `logs` array of `LoggingProvider`. -/
structure AppState where
  shortLinks : List ShortLink
  logs : List LogEntry
deriving DecidableEq

/-- The initial state: both providers start from empty arrays. -/
def initState : AppState := ⟨[], []⟩

/-- `addShortLinks(links)`: appends the given links to `shortLinks` and
logs one info entry reporting the count. -/
def addShortLinks (s : AppState) (links : List ShortLink) : AppState :=
  { shortLinks := s.shortLinks ++ links
    logs := s.logs ++
      [⟨"info", "Added " ++ toString links.length ++ " short links"⟩] }

/-- `getShortLink(shortcode)`: finds the first record with an exactly
matching shortcode; if it exists but `now > expiresAt`, logs a warning and
returns `undefined`; otherwise returns the find result (which is
`undefined`, with no log, when nothing matched).  `now` is the value of
`new Date()` at the call. -/
def getShortLink (now : Rat) (s : AppState) (shortcode : String) :
    Option ShortLink × AppState :=
  match s.shortLinks.find? (fun l => l.shortcode == shortcode) with
  | some link =>
    if link.expiresAt < now then
      (none, { s with
        logs := s.logs ++ [⟨"warning", "Link expired: " ++ shortcode⟩] })
    else
      (some link, s)
  | none => (none, s)

/-- The per-record update performed inside `recordClick`'s `map`. -/
def applyClick (shortcode : String) (metadata : ClickEvent)
    (link : ShortLink) : ShortLink :=
  if link.shortcode == shortcode then
    { link with
      clickCount := link.clickCount + 1
      clicks := link.clicks ++ [metadata] }
  else link

/-- `recordClick(shortcode, metadata)`: maps over all records, bumping
`clickCount` and appending `metadata` on every record whose shortcode
matches, then logs one info entry (unconditionally). -/
def recordClick (s : AppState) (shortcode : String) (metadata : ClickEvent) :
    AppState :=
  { shortLinks := s.shortLinks.map (applyClick shortcode metadata)
    logs := s.logs ++ [⟨"info", "Click recorded for " ++ shortcode⟩] }

/-- `recordClick` iterated over a list of click metadata, first to last. -/
def recordClicks (s : AppState) (shortcode : String)
    (metas : List ClickEvent) : AppState :=
  metas.foldl (fun st m => recordClick st shortcode m) s

/-- The 62-character alphabet of `generateShortcode`. -/
def shortcodeChars : List Char :=
  "ABCDEFGHIJKLMNOPQRSTUVWXYZabcdefghijklmnopqrstuvwxyz0123456789".data

/-- `generateShortcode()` for attempt number `k`: six characters drawn from
`shortcodeChars`.  The source draws `Math.floor(Math.random() * 62)`;
draw number `n` of the whole run is modelled by `draws n % 62`, and attempt
`k` consumes draws `6*k` through `6*k+5`. -/
def generateShortcode (draws : Nat → Nat) (k : Nat) : String :=
  String.mk ((List.range 6).map
    (fun i => shortcodeChars.getD (draws (6 * k + i) % 62) 'A'))

/-- The `do … while (usedShortcodes.has(shortcode))` loop of `handleSubmit`:
generate a code, retry while it collides with a used one.  The source loop
is unbounded; `fuel` bounds the number of attempts so the model is total,
and `none` means the fuel ran out. -/
def genLoop (draws : Nat → Nat) (used : List String) :
    Nat → Nat → Option String
  | 0, _ => none
  | fuel + 1, k =>
    let code := generateShortcode draws k
    if used.contains code then genLoop draws used fuel (k + 1) else some code

/-- A character allowed after the first in a URL scheme. -/
def isSchemeChar (c : Char) : Bool :=
  c.isAlphanum || c == '+' || c == '-' || c == '.'

/-- Modelled from the spec: `validateUrl` calls the browser's
`new URL(url)` constructor, which is not part of the repository.  The model
accepts exactly the strings that start with a scheme — at least one
character, the first alphabetic — followed by a colon. -/
def validateUrl (url : String) : Bool :=
  let cs := url.data
  let scheme := cs.takeWhile (fun c => !(c == ':'))
  decide (1 ≤ scheme.length) && decide (scheme.length < cs.length) &&
    (scheme.headD ' ').isAlpha && scheme.all isSchemeChar

/-- `validateShortcode`: the regex test `^[a-zA-Z0-9]{3,20}$`. -/
def validateShortcode (shortcode : String) : Bool :=
  decide (3 ≤ shortcode.data.length) && decide (shortcode.data.length ≤ 20) &&
    shortcode.data.all Char.isAlphanum

/-- The state of the creation form: `{ originalUrl, validityMinutes,
customShortcode }`. -/
structure UrlForm where
  originalUrl : String
  validityMinutes : Rat
  customShortcode : String
deriving DecidableEq

/-- `validateForm` of `URLShortenerForm`: pushes one message per violated
rule, in source order (URL, validity, custom shortcode), onto `newErrors`.
Validation fails iff the result is nonempty. -/
def validateForm (url : UrlForm) (shortLinks : List ShortLink) :
    List String :=
  let usedShortcodes := shortLinks.map (fun l => l.shortcode)
  (if url.originalUrl == "" then ["URL is required"]
   else if !validateUrl url.originalUrl then ["Invalid URL format"]
   else []) ++
  (if url.validityMinutes != 0 &&
      (!url.validityMinutes.isInt || decide (url.validityMinutes < 1)) then
    ["Validity must be a positive integer"]
   else []) ++
  (if url.customShortcode != "" then
    (if !validateShortcode url.customShortcode then
      ["Shortcode must be 3-20 alphanumeric characters"]
     else if usedShortcodes.contains url.customShortcode then
      ["Shortcode already exists"]
     else [])
   else [])

/-- The `newShortLink` record built in `handleSubmit`: fresh id, the given
shortcode, `expiresAt = createdAt + validityMinutes * 60 * 1000`
(timestamps in milliseconds), zero clicks. -/
def mkShortLink (id originalUrl shortcode : String)
    (validityMinutes createdAt : Rat) : ShortLink :=
  { id := id
    originalUrl := originalUrl
    shortcode := shortcode
    validityMinutes := validityMinutes
    createdAt := createdAt
    expiresAt := createdAt + validityMinutes * 60 * 1000
    clickCount := 0
    clicks := [] }

/-- The registry operations that mutate state: creation (via
`addShortLinks` of one freshly built record, as `handleSubmit` does) and
click recording. -/
inductive Op where
  | create (id originalUrl shortcode : String)
      (validityMinutes createdAt : Rat)
  | click (shortcode : String) (metadata : ClickEvent)

/-- Run one operation on the state. -/
def applyOp (s : AppState) : Op → AppState
  | .create id u sc v t => addShortLinks s [mkShortLink id u sc v t]
  | .click sc m => recordClick s sc m

/-- Every record's `clickCount` equals the length of its `clicks` list. -/
def clickInvariant (s : AppState) : Prop :=
  ∀ l ∈ s.shortLinks, l.clickCount = l.clicks.length

end UrlShortener

namespace UrlShortener

/-! ### Helper lemmas -/

lemma applyClick_of_ne {code : String} {m : ClickEvent} {l : ShortLink}
    (h : l.shortcode ≠ code) : applyClick code m l = l := by
  simp [applyClick, h]

lemma applyClick_of_eq {code : String} {m : ClickEvent} {l : ShortLink}
    (h : l.shortcode = code) :
    applyClick code m l =
      { l with clickCount := l.clickCount + 1, clicks := l.clicks ++ [m] } := by
  simp [applyClick, h]

lemma clickInvariant_applyOp {s : AppState} (h : clickInvariant s) (op : Op) :
    clickInvariant (applyOp s op) := by
  cases op with
  | create id u sc v t =>
    intro l hl
    rcases List.mem_append.mp hl with h1 | h2
    · exact h l h1
    · rcases List.mem_singleton.mp h2 with rfl
      rfl
  | click sc m =>
    intro l hl
    rcases List.mem_map.mp hl with ⟨l0, hl0, rfl⟩
    by_cases hc : l0.shortcode = sc
    · rw [applyClick_of_eq hc]
      simp [h l0 hl0]
    · rw [applyClick_of_ne hc]
      exact h l0 hl0

lemma clickInvariant_foldl (ops : List Op) (s : AppState)
    (h : clickInvariant s) : clickInvariant (ops.foldl applyOp s) := by
  induction ops generalizing s with
  | nil => exact h
  | cons op rest ih => exact ih _ (clickInvariant_applyOp h op)

/-! ### Claims -/

/-- Claim C1: after any sequence of operations on the registry (creation
via `addShortLinks` of a freshly built record, and any number of
`recordClick` calls), every record's `clickCount` equals the length of its
`clicks` list. -/
theorem clickCount_eq_length_clicks (ops : List Op) :
    ∀ l ∈ (ops.foldl applyOp initState).shortLinks,
      l.clickCount = l.clicks.length :=
  clickInvariant_foldl ops initState (fun l hl => absurd hl (List.not_mem_nil l))

theorem clickCount_eq_length_clicks_witness :
    ({ mkShortLink "id1" "https://a.com" "abc123" 30 0 with
        clickCount := 1,
        clicks := [⟨5, "Direct", "New York, US"⟩] } : ShortLink).clickCount =
    ({ mkShortLink "id1" "https://a.com" "abc123" 30 0 with
        clickCount := 1,
        clicks := [⟨5, "Direct", "New York, US"⟩] } : ShortLink).clicks.length :=
  clickCount_eq_length_clicks
    [Op.create "id1" "https://a.com" "abc123" 30 0,
     Op.click "abc123" ⟨5, "Direct", "New York, US"⟩]
    _ (by simp [applyOp, initState, addShortLinks, recordClick, applyClick,
          mkShortLink])

/-- Claim C2, counterexample: on a shortcode matching no record,
`recordClick` leaves `shortLinks` unchanged but the claim's "no log event
is emitted" part is false — the info log is appended unconditionally. -/
theorem recordClick_unknown_emits_log :
    (recordClick
        ⟨[⟨"id1", "https://a.com", "abc123", 30, 0, 100, 0, []⟩], []⟩
        "unknown-code" ⟨0, "Direct", "New York, US"⟩).shortLinks
      = [⟨"id1", "https://a.com", "abc123", 30, 0, 100, 0, []⟩] ∧
    (recordClick
        ⟨[⟨"id1", "https://a.com", "abc123", 30, 0, 100, 0, []⟩], []⟩
        "unknown-code" ⟨0, "Direct", "New York, US"⟩).logs ≠ [] :=
  ⟨by decide, by decide⟩

/-- Claim C2, amended: for a shortcode matching no record, `recordClick`
leaves the records collection unchanged and raises no error, but it does
emit exactly one info-level log event naming the shortcode. -/
theorem recordClick_unknown_noop (s : AppState) (code : String)
    (m : ClickEvent) (h : ∀ l ∈ s.shortLinks, l.shortcode ≠ code) :
    (recordClick s code m).shortLinks = s.shortLinks ∧
    (recordClick s code m).logs =
      s.logs ++ [⟨"info", "Click recorded for " ++ code⟩] := by
  constructor
  · have hmap : s.shortLinks.map (applyClick code m) = s.shortLinks.map id :=
      List.map_congr_left (fun l hl => applyClick_of_ne (h l hl))
    show s.shortLinks.map (applyClick code m) = s.shortLinks
    rw [hmap, List.map_id]
  · rfl

theorem recordClick_unknown_noop_witness :
    (recordClick
        ⟨[⟨"id1", "https://a.com", "abc123", 30, 0, 100, 0, []⟩], []⟩
        "zzz999" ⟨0, "Direct", "Tokyo, JP"⟩).shortLinks
      = [⟨"id1", "https://a.com", "abc123", 30, 0, 100, 0, []⟩] ∧
    (recordClick
        ⟨[⟨"id1", "https://a.com", "abc123", 30, 0, 100, 0, []⟩], []⟩
        "zzz999" ⟨0, "Direct", "Tokyo, JP"⟩).logs
      = [] ++ [⟨"info", "Click recorded for " ++ "zzz999"⟩] :=
  recordClick_unknown_noop
    ⟨[⟨"id1", "https://a.com", "abc123", 30, 0, 100, 0, []⟩], []⟩
    "zzz999" ⟨0, "Direct", "Tokyo, JP"⟩ (by decide)

/-- Claim C3, counterexample: on the empty registry,
`create("https://a.com", 0)` does not fail — `validateForm` returns no
violation, because `0` is falsy and the validity check is skipped. -/
theorem validity_zero_passes_validation :
    validateForm ⟨"https://a.com", 0, ""⟩ [] = [] := by decide

/-- Claim C3, amended: creation with validity 0 passes validation (the
truthiness guard skips the positive-integer check for 0) and produces a
record whose `expiresAt` equals its `createdAt`; a nonzero validity that is
not a positive integer does fail with the "Validity must be a positive
integer" violation. -/
theorem validity_zero_amended :
    (∀ links : List ShortLink,
      validateForm ⟨"https://a.com", 0, ""⟩ links = []) ∧
    (∀ (id u sc : String) (t : Rat), (mkShortLink id u sc 0 t).expiresAt = t) ∧
    (∀ (u sc : String) (v : Rat) (links : List ShortLink),
      v ≠ 0 → ¬ v.isInt = true ∨ v < 1 →
      "Validity must be a positive integer" ∈ validateForm ⟨u, v, sc⟩ links) := by
  refine ⟨fun links => rfl, fun id u sc t => by simp [mkShortLink], ?_⟩
  intro u sc v links hv h
  have hcond : (v != 0 && (!v.isInt || decide (v < 1))) = true := by
    rw [Bool.and_eq_true, bne_iff_ne, Bool.or_eq_true]
    refine ⟨hv, ?_⟩
    rcases h with h | h
    · left
      rw [Bool.not_eq_true']
      exact (Bool.not_eq_true _) ▸ h
    · right
      exact decide_eq_true h
  simp only [validateForm]
  refine List.mem_append_left _ (List.mem_append_right _ ?_)
  rw [if_pos hcond]
  exact List.mem_singleton.mpr rfl

theorem validity_zero_amended_witness :
    "Validity must be a positive integer" ∈
      validateForm ⟨"https://a.com", -5, ""⟩ [] :=
  validity_zero_amended.2.2 "https://a.com" "" (-5) [] (by decide)
    (Or.inr (by decide))

/-- Claim C4: `create` with an empty `originalUrl` fails with the
"URL is required" violation and not additionally "Invalid URL format";
and validation accumulates one message per violated rule across all inputs
(here all three rules violated at once yield all three messages, in push
order) rather than stopping at the first violation. -/
theorem empty_url_required_only (v : Rat) (sc : String)
    (links : List ShortLink) :
    "URL is required" ∈ validateForm ⟨"", v, sc⟩ links ∧
    "Invalid URL format" ∉ validateForm ⟨"", v, sc⟩ links ∧
    validateForm ⟨"", -1, "ab"⟩ [] =
      ["URL is required", "Validity must be a positive integer",
       "Shortcode must be 3-20 alphanumeric characters"] := by
  refine ⟨?_, ?_, by decide⟩
  · simp only [validateForm]
    refine List.mem_append_left _ (List.mem_append_left _ ?_)
    simp
  · intro h
    simp only [validateForm] at h
    rcases List.mem_append.mp h with h12 | h3
    · rcases List.mem_append.mp h12 with h1 | h2
      · simp at h1
      · by_cases hc : (v != 0 && (!v.isInt || decide (v < 1))) = true
        · rw [if_pos hc] at h2
          simp at h2
        · rw [if_neg hc] at h2
          simp at h2
    · by_cases hc : (sc != "") = true
      · rw [if_pos hc] at h3
        by_cases hc2 : (!validateShortcode sc) = true
        · rw [if_pos hc2] at h3
          simp at h3
        · rw [if_neg hc2] at h3
          by_cases hc3 :
              (List.map (fun l => l.shortcode) links).contains sc = true
          · rw [if_pos hc3] at h3
            simp at h3
          · rw [if_neg hc3] at h3
            simp at h3
      · rw [if_neg hc] at h3
        simp at h3

theorem empty_url_required_only_witness :
    "URL is required" ∈ validateForm ⟨"", (-1 : Rat), "ab"⟩ [] ∧
    "Invalid URL format" ∉ validateForm ⟨"", (-1 : Rat), "ab"⟩ [] ∧
    validateForm ⟨"", -1, "ab"⟩ [] =
      ["URL is required", "Validity must be a positive integer",
       "Shortcode must be 3-20 alphanumeric characters"] :=
  empty_url_required_only (-1) "ab" []

end UrlShortener

namespace UrlShortener

/-! ### Lookup and click-frame lemmas -/

lemma map_eq_self {α : Type _} {f : α → α} {l : List α}
    (h : ∀ x ∈ l, f x = x) : l.map f = l := by
  induction l with
  | nil => rfl
  | cons a as ih =>
    rw [List.map_cons, h a (List.mem_cons_self a as),
      ih (fun x hx => h x (List.mem_cons_of_mem a hx))]

lemma find?_eq_some_of_first {α : Type _} (p : α → Bool) (xs : List α) :
    ∀ (i : Nat) (x : α), xs[i]? = some x → p x = true →
    (∀ j, j < i → ∀ y, xs[j]? = some y → p y = false) →
    xs.find? p = some x := by
  induction xs with
  | nil =>
    intro i x hx
    simp at hx
  | cons a as ih =>
    intro i x hx hp hmin
    cases i with
    | zero =>
      rw [List.getElem?_cons_zero] at hx
      injection hx with hx
      subst hx
      exact List.find?_cons_of_pos as hp
    | succ n =>
      have ha : p a = false :=
        hmin 0 (Nat.succ_pos n) a List.getElem?_cons_zero
      rw [List.find?_cons_of_neg as (by simp [ha])]
      refine ih n x ?_ hp ?_
      · rw [List.getElem?_cons_succ] at hx
        exact hx
      · intro j hj y hy
        exact hmin (j + 1) (Nat.succ_lt_succ hj) y
          (by rw [List.getElem?_cons_succ]; exact hy)

lemma getShortLink_shortLinks (now : Rat) (s : AppState) (code : String) :
    (getShortLink now s code).2.shortLinks = s.shortLinks := by
  unfold getShortLink
  cases s.shortLinks.find? (fun l => l.shortcode == code) with
  | none => rfl
  | some link =>
    dsimp only
    split <;> rfl

lemma getShortLink_fst_congr (now : Rat) (code : String) {s1 s2 : AppState}
    (h : s1.shortLinks = s2.shortLinks) :
    (getShortLink now s1 code).1 = (getShortLink now s2 code).1 := by
  unfold getShortLink
  rw [h]
  cases s2.shortLinks.find? (fun l => l.shortcode == code) with
  | none => rfl
  | some link =>
    dsimp only
    split <;> rfl

/-- Claim C5: `lookup` returns the first record with an exactly matching
shortcode when `now` is not past its `expiresAt`; on a match that is
expired (`expiresAt < now`) it returns not-found, leaves the records list
untouched, and appends one warning-level log naming the shortcode; when no
record matches it returns not-found and leaves the whole state (logs
included) unchanged. -/
theorem lookup_cases (now : Rat) (s : AppState) (code : String) :
    (getShortLink now s code).2.shortLinks = s.shortLinks ∧
    (∀ (i : Nat) (l : ShortLink), s.shortLinks[i]? = some l →
      l.shortcode = code →
      (∀ j, j < i → ∀ l', s.shortLinks[j]? = some l' → l'.shortcode ≠ code) →
      ((¬ l.expiresAt < now → getShortLink now s code = (some l, s)) ∧
       (l.expiresAt < now →
        (getShortLink now s code).1 = none ∧
        (getShortLink now s code).2 =
          { s with logs := s.logs ++
              [⟨"warning", "Link expired: " ++ code⟩] }))) ∧
    ((∀ l ∈ s.shortLinks, l.shortcode ≠ code) →
      getShortLink now s code = (none, s)) := by
  refine ⟨getShortLink_shortLinks now s code, ?_, ?_⟩
  · intro i l hl hc hmin
    have hfind :
        s.shortLinks.find? (fun l' => l'.shortcode == code) = some l := by
      refine find?_eq_some_of_first _ _ i l hl (beq_iff_eq.mpr hc) ?_
      intro j hj y hy
      exact beq_eq_false_iff_ne.mpr (hmin j hj y hy)
    constructor
    · intro hexp
      unfold getShortLink
      rw [hfind]
      dsimp only
      rw [if_neg hexp]
    · intro hexp
      unfold getShortLink
      rw [hfind]
      dsimp only
      rw [if_pos hexp]
      exact ⟨rfl, rfl⟩
  · intro hnone
    have h0 : s.shortLinks.find? (fun l' => l'.shortcode == code) = none :=
      List.find?_eq_none.mpr (fun x hx => by simpa using hnone x hx)
    unfold getShortLink
    rw [h0]

theorem lookup_cases_witness :
    getShortLink 50
        ⟨[⟨"id1", "https://a.com", "abc123", 30, 0, 100, 0, []⟩], []⟩
        "abc123"
      = (some ⟨"id1", "https://a.com", "abc123", 30, 0, 100, 0, []⟩,
         ⟨[⟨"id1", "https://a.com", "abc123", 30, 0, 100, 0, []⟩], []⟩) :=
  ((lookup_cases 50
      ⟨[⟨"id1", "https://a.com", "abc123", 30, 0, 100, 0, []⟩], []⟩
      "abc123").2.1 0 ⟨"id1", "https://a.com", "abc123", 30, 0, 100, 0, []⟩
      rfl rfl (fun j hj => absurd hj (Nat.not_lt_zero j))).1 (by decide)

/-- Claim C9: `lookup` is idempotent — calling it twice in a row at the
same time with no intervening mutation yields equal results. -/
theorem lookup_idempotent (now : Rat) (s : AppState) (code : String) :
    (getShortLink now ((getShortLink now s code).2) code).1 =
      (getShortLink now s code).1 :=
  getShortLink_fst_congr now code (getShortLink_shortLinks now s code)

/-! ### Shortcode generation lemmas -/

lemma shortcodeChars_alnum : ∀ c ∈ shortcodeChars, c.isAlphanum = true := by
  decide

lemma getD_shortcodeChars_mem (n : Nat) :
    shortcodeChars.getD (n % 62) 'A' ∈ shortcodeChars := by
  have h : n % 62 < shortcodeChars.length := Nat.mod_lt n (by decide)
  rw [List.getD_eq_getElem?_getD, List.getElem?_eq_getElem h]
  simp only [Option.getD_some]
  exact List.getElem_mem h

lemma generateShortcode_length (draws : Nat → Nat) (k : Nat) :
    (generateShortcode draws k).data.length = 6 := by
  simp [generateShortcode]

lemma generateShortcode_alnum (draws : Nat → Nat) (k : Nat) :
    ∀ c ∈ (generateShortcode draws k).data, c.isAlphanum = true := by
  intro c hc
  simp only [generateShortcode] at hc
  rcases List.mem_map.mp hc with ⟨i, _, rfl⟩
  exact shortcodeChars_alnum _ (getD_shortcodeChars_mem _)

lemma genLoop_spec (draws : Nat → Nat) (used : List String) :
    ∀ (fuel k : Nat) (c : String), genLoop draws used fuel k = some c →
      (∃ k', c = generateShortcode draws k') ∧ used.contains c = false := by
  intro fuel
  induction fuel with
  | zero =>
    intro k c h
    simp [genLoop] at h
  | succ n ih =>
    intro k c h
    simp only [genLoop] at h
    by_cases hc : used.contains (generateShortcode draws k) = true
    · rw [if_pos hc] at h
      exact ih (k + 1) c h
    · rw [if_neg hc] at h
      injection h with h
      subst h
      exact ⟨⟨k, rfl⟩, (Bool.not_eq_true _) ▸ hc⟩

/-- Claim C6: when the generation loop produces a shortcode, it is a
6-character string of alphanumeric characters (hence satisfying the
`^[A-Za-z0-9]{3,20}$` shortcode rule) and differs from the shortcode of
every previously created record, expired or not. -/
theorem generated_shortcode_valid (draws : Nat → Nat)
    (links : List ShortLink) (fuel : Nat) (c : String)
    (h : genLoop draws (links.map (fun l => l.shortcode)) fuel 0 = some c) :
    c.data.length = 6 ∧ (∀ ch ∈ c.data, ch.isAlphanum = true) ∧
    validateShortcode c = true ∧ ∀ l ∈ links, l.shortcode ≠ c := by
  obtain ⟨⟨k, rfl⟩, hcontains⟩ := genLoop_spec draws _ fuel 0 c h
  refine ⟨generateShortcode_length draws k, generateShortcode_alnum draws k,
    ?_, ?_⟩
  · simp [validateShortcode, generateShortcode_length draws k,
      List.all_eq_true]
    exact generateShortcode_alnum draws k
  · intro l hl heq
    have hmem : (links.map (fun l' => l'.shortcode)).contains
        (generateShortcode draws k) = true :=
      List.elem_iff.mpr (List.mem_map.mpr ⟨l, hl, heq⟩)
    exact absurd (hcontains ▸ hmem) (by decide)

theorem generated_shortcode_valid_witness :
    ("AAAAAA" : String).data.length = 6 ∧
    (∀ ch ∈ ("AAAAAA" : String).data, ch.isAlphanum = true) ∧
    validateShortcode "AAAAAA" = true ∧
    ∀ l ∈ ([] : List ShortLink), l.shortcode ≠ "AAAAAA" :=
  generated_shortcode_valid (fun _ => 0) [] 1 "AAAAAA" (by decide)

lemma recordClicks_shortLinks (code : String) (metas : List ClickEvent) :
    ∀ s : AppState, (recordClicks s code metas).shortLinks =
      s.shortLinks.map (fun l => if l.shortcode == code then
        { l with clickCount := l.clickCount + metas.length,
                 clicks := l.clicks ++ metas } else l) := by
  induction metas with
  | nil =>
    intro s
    show s.shortLinks = _
    refine (map_eq_self ?_).symm
    intro l _
    split
    · simp
    · rfl
  | cons m rest ih =>
    intro s
    show (recordClicks (recordClick s code m) code rest).shortLinks = _
    rw [ih (recordClick s code m)]
    show (s.shortLinks.map (applyClick code m)).map _ = _
    rw [List.map_map]
    refine List.map_congr_left ?_
    intro l _
    show (if (applyClick code m l).shortcode == code then _ else _) = _
    by_cases hc : l.shortcode = code
    · have hc' : (l.shortcode == code) = true := beq_iff_eq.mpr hc
      rw [applyClick_of_eq hc]
      show (if (l.shortcode == code) = true then _ else _) = _
      rw [if_pos hc', if_pos hc']
      simp [List.append_assoc]
      all_goals omega
    · have hc' : ¬ ((l.shortcode == code) = true) := by
        simp [beq_eq_false_iff_ne.mpr hc]
      rw [applyClick_of_ne hc]
      rw [if_neg hc', if_neg hc']

/-- Claim C8: on a record present in the registry with a fresh click
history, N `recordClick` calls with metadata `metas` (in order) yield
`clickCount = N` and `clicks = metas` in call order; expiry is never
consulted, so this holds whatever `expiresAt` is. -/
theorem clicks_accumulate (s : AppState) (code : String)
    (metas : List ClickEvent) (i : Nat) (l : ShortLink)
    (hl : s.shortLinks[i]? = some l) (hc : l.shortcode = code)
    (h0 : l.clickCount = 0) (he : l.clicks = []) :
    (recordClicks s code metas).shortLinks[i]? =
      some { l with clickCount := metas.length, clicks := metas } := by
  rw [recordClicks_shortLinks code metas s, List.getElem?_map, hl,
    Option.map_some']
  rw [if_pos (beq_iff_eq.mpr hc), h0, he]
  simp

theorem clicks_accumulate_witness :
    (recordClicks
        ⟨[⟨"id1", "https://a.com", "abc123", 30, 0, 100, 0, []⟩], []⟩
        "abc123"
        [⟨1, "Direct", "Tokyo, JP"⟩, ⟨2, "Direct", "London, UK"⟩]
      ).shortLinks[0]? =
      some ⟨"id1", "https://a.com", "abc123", 30, 0, 100, 2,
        [⟨1, "Direct", "Tokyo, JP"⟩, ⟨2, "Direct", "London, UK"⟩]⟩ :=
  clicks_accumulate
    ⟨[⟨"id1", "https://a.com", "abc123", 30, 0, 100, 0, []⟩], []⟩
    "abc123" [⟨1, "Direct", "Tokyo, JP"⟩, ⟨2, "Direct", "London, UK"⟩]
    0 ⟨"id1", "https://a.com", "abc123", 30, 0, 100, 0, []⟩ rfl rfl rfl rfl

/-- Claim C10: `recordClick` preserves the number and relative order of
records, leaves every non-matching record completely unchanged, and on a
matching record changes only `clickCount` and `clicks`, leaving `id`,
`originalUrl`, `shortcode`, `createdAt` and `expiresAt` untouched. -/
theorem recordClick_frame (s : AppState) (code : String) (m : ClickEvent) :
    (recordClick s code m).shortLinks.length = s.shortLinks.length ∧
    ∀ (i : Nat) (l : ShortLink), s.shortLinks[i]? = some l →
      ((l.shortcode ≠ code → (recordClick s code m).shortLinks[i]? = some l) ∧
       (l.shortcode = code →
         (recordClick s code m).shortLinks[i]? =
           some { l with clickCount := l.clickCount + 1,
                         clicks := l.clicks ++ [m] } ∧
         ∀ l', (recordClick s code m).shortLinks[i]? = some l' →
           l'.id = l.id ∧ l'.originalUrl = l.originalUrl ∧
           l'.shortcode = l.shortcode ∧ l'.createdAt = l.createdAt ∧
           l'.expiresAt = l.expiresAt)) := by
  constructor
  · exact List.length_map _ _
  · intro i l hl
    have hmap : (recordClick s code m).shortLinks[i]? =
        Option.map (applyClick code m) s.shortLinks[i]? :=
      List.getElem?_map _ _ _
    constructor
    · intro hne
      rw [hmap, hl, Option.map_some', applyClick_of_ne hne]
    · intro heq
      rw [hmap, hl, Option.map_some', applyClick_of_eq heq]
      refine ⟨rfl, ?_⟩
      intro l' hl'
      injection hl' with hl'
      subst hl'
      exact ⟨rfl, rfl, rfl, rfl, rfl⟩

theorem recordClick_frame_witness :
    (recordClick
        ⟨[⟨"id1", "https://a.com", "abc123", 30, 0, 100, 0, []⟩,
          ⟨"id2", "https://b.com", "zzz999", 30, 0, 100, 0, []⟩], []⟩
        "abc123" ⟨7, "Direct", "Sydney, AU"⟩).shortLinks[1]?
      = some ⟨"id2", "https://b.com", "zzz999", 30, 0, 100, 0, []⟩ :=
  ((recordClick_frame
      ⟨[⟨"id1", "https://a.com", "abc123", 30, 0, 100, 0, []⟩,
        ⟨"id2", "https://b.com", "zzz999", 30, 0, 100, 0, []⟩], []⟩
      "abc123" ⟨7, "Direct", "Sydney, AU"⟩).2 1
      ⟨"id2", "https://b.com", "zzz999", 30, 0, 100, 0, []⟩ rfl).1
    (by decide)

end UrlShortener

namespace UrlShortener

/-- Claim C7: a custom shortcode (well-formed per the shortcode regex, as
every stored shortcode is) that equals the shortcode of any existing
record — the records' `expiresAt` values are fully arbitrary here, so
expired records are included — makes validation fail with the
"Shortcode already exists" violation; the check scans all records, so an
expired shortcode can never be reused. -/
theorem custom_shortcode_collision (u : String) (v : Rat) (sc : String)
    (links : List ShortLink)
    (hfmt : validateShortcode sc = true)
    (hmem : ∃ l ∈ links, l.shortcode = sc) :
    "Shortcode already exists" ∈ validateForm ⟨u, v, sc⟩ links ∧
    validateForm ⟨u, v, sc⟩ links ≠ [] := by
  have hne : (sc != "") = true := by
    rw [bne_iff_ne]
    intro h
    subst h
    simp [validateShortcode] at hfmt
  have hnotfmt : ¬ ((!validateShortcode sc) = true) := by
    simp [hfmt]
  have hcont : (links.map (fun l => l.shortcode)).contains sc = true := by
    rcases hmem with ⟨l, hl, hsc⟩
    exact List.elem_iff.mpr (List.mem_map.mpr ⟨l, hl, hsc⟩)
  have hmem2 : "Shortcode already exists" ∈ validateForm ⟨u, v, sc⟩ links := by
    simp only [validateForm]
    refine List.mem_append_right _ ?_
    rw [if_pos hne, if_neg hnotfmt, if_pos hcont]
    exact List.mem_singleton.mpr rfl
  exact ⟨hmem2, List.ne_nil_of_mem hmem2⟩

theorem custom_shortcode_collision_witness :
    "Shortcode already exists" ∈
      validateForm ⟨"https://a.com", 30, "abc123"⟩
        [⟨"id1", "https://b.com", "abc123", 30, 0, 100, 0, []⟩] ∧
    validateForm ⟨"https://a.com", 30, "abc123"⟩
      [⟨"id1", "https://b.com", "abc123", 30, 0, 100, 0, []⟩] ≠ [] :=
  custom_shortcode_collision "https://a.com" 30 "abc123"
    [⟨"id1", "https://b.com", "abc123", 30, 0, 100, 0, []⟩] (by decide)
    ⟨⟨"id1", "https://b.com", "abc123", 30, 0, 100, 0, []⟩, by decide, rfl⟩

end UrlShortener
